import Mathlib

/-!
Shallow embedding of the emotif emoji data builder
(crates/unicode-types/src/lib.rs and crates/emojeez_generate/src/unicode/mod.rs)
and proofs about its parsing and aggregation behaviour.

Strings are modelled as `List Char`; machine integers as `Nat`/`Int` with the
explicit range checks the Rust parsers perform; fallible code returns
`Except BuildErr`.  The Rust `unreachable!()` macro and the `Option::unwrap`
call are modelled as explicit outcomes (`BuildErr.panicUnreachable`, `none`)
so that a reached panic is visible in the embedding.
-/

namespace Emotif

/-- Qualification status of a raw registry entry (unicode-types `Status`). -/
inductive Status where
  | fullyQualified
  | minimallyQualified
  | unqualified
  | component
deriving DecidableEq, Repr

/-- Skin tone classification (unicode-types `SkinTone`), in declaration order. -/
inductive SkinTone where
  | default
  | light
  | mediumLight
  | medium
  | mediumDark
  | dark
  | lightAndMediumLight
  | lightAndMedium
  | lightAndMediumDark
  | lightAndDark
  | mediumLightAndLight
  | mediumLightAndMedium
  | mediumLightAndMediumDark
  | mediumLightAndDark
  | mediumAndLight
  | mediumAndMediumLight
  | mediumAndMediumDark
  | mediumAndDark
  | mediumDarkAndLight
  | mediumDarkAndMediumLight
  | mediumDarkAndMedium
  | mediumDarkAndDark
  | darkAndLight
  | darkAndMediumLight
  | darkAndMedium
  | darkAndMediumDark
deriving DecidableEq, Repr

/-- Declaration index of a `SkinTone` variant; the derived Rust `Ord` compares
by this index. -/
def SkinTone.idx : SkinTone → Nat
  | .default => 0
  | .light => 1
  | .mediumLight => 2
  | .medium => 3
  | .mediumDark => 4
  | .dark => 5
  | .lightAndMediumLight => 6
  | .lightAndMedium => 7
  | .lightAndMediumDark => 8
  | .lightAndDark => 9
  | .mediumLightAndLight => 10
  | .mediumLightAndMedium => 11
  | .mediumLightAndMediumDark => 12
  | .mediumLightAndDark => 13
  | .mediumAndLight => 14
  | .mediumAndMediumLight => 15
  | .mediumAndMediumDark => 16
  | .mediumAndDark => 17
  | .mediumDarkAndLight => 18
  | .mediumDarkAndMediumLight => 19
  | .mediumDarkAndMedium => 20
  | .mediumDarkAndDark => 21
  | .darkAndLight => 22
  | .darkAndMediumLight => 23
  | .darkAndMedium => 24
  | .darkAndMediumDark => 25

/-- Strict order on `Option SkinTone` as derived in Rust: `None` is below every
`Some`, and `Some` values compare by declaration order. -/
def optToneLt : Option SkinTone → Option SkinTone → Bool
  | none, none => false
  | none, some _ => true
  | some _, none => false
  | some a, some b => a.idx < b.idx

/-- Emoji group (unicode-types `Group`). -/
inductive Group where
  | smileysAndEmotion
  | peopleAndBody
  | animalsAndNature
  | foodAndDrink
  | travelAndPlaces
  | activities
  | objects
  | symbols
  | flags
  | component
deriving DecidableEq, Repr

/-- Canonical display string of a `Group` (unicode-types `Group::as_str`). -/
def Group.asStr : Group → List Char
  | .smileysAndEmotion => "Smileys & Emotion".data
  | .peopleAndBody => "People & Body".data
  | .animalsAndNature => "Animals & Nature".data
  | .foodAndDrink => "Food & Drink".data
  | .travelAndPlaces => "Travel & Places".data
  | .activities => "Activities".data
  | .objects => "Objects".data
  | .symbols => "Symbols".data
  | .flags => "Flags".data
  | .component => "Component".data

/-- The candidate list walked by `Group::try_from`, in source order. -/
def groupList : List Group :=
  [.smileysAndEmotion, .peopleAndBody, .animalsAndNature, .foodAndDrink,
   .travelAndPlaces, .activities, .objects, .symbols, .flags, .component]

/-- Error outcomes of the generator, one variant per distinct failure site. -/
inductive BuildErr where
  | expectedCodePoints
  | expectedStatus
  | expectedEmoji
  | expectedUnicodeVersion
  | expectedName
  | invalidStatus
  | missingE
  | missingDecimal
  | invalidVersionComponent
  | invalidHex
  | invalidScalarValue
  | emojiMismatch
  | missingGroup
  | missingSubgroup
  | invalidGroup
  | noCanonicalVariant
  | noDefaultToneSibling
  | unrecognizedToneCombination
  | panicUnreachable
deriving DecidableEq, Repr

/-- The loop body of `Group::try_from`: first candidate whose canonical string
equals the input wins. -/
def tryFromGroupGo (s : List Char) : List Group → Except BuildErr Group
  | [] => .error .invalidGroup
  | g :: rest => if Group.asStr g = s then .ok g else tryFromGroupGo s rest

/-- `Group::try_from(&str)`: exact match against the canonical strings. -/
def tryFromGroup (s : List Char) : Except BuildErr Group :=
  tryFromGroupGo s groupList

/-- Version number (unicode-types `Version`, a pair of `i16`). -/
structure Version where
  major : Int
  minor : Int
deriving DecidableEq, Repr

/-- A raw registry entry (unicode-types `Entry`, owned-string instantiation). -/
structure Entry where
  group : Group
  subgroup : List Char
  status : Status
  unicode_version : Version
  emoji : List Char
  name : List Char
  ios_version : Option Version
  tags : List (List Char)
  aliases : List (List Char)
deriving DecidableEq, Repr

/-- An aggregated emoji record (unicode-types `Emoji`). -/
structure Emoji where
  entry : Entry
  skin_tones : Nat
  skin_tone : Option SkinTone
  variations : List (List Char)
deriving DecidableEq, Repr

/-- One record of the external github catalog (`Gemoji`). -/
structure Gemoji where
  emoji : List Char
  aliases : List (List Char)
  ios_version : Version
  tags : List (List Char)
deriving DecidableEq, Repr

/-- The five skin tone modifier code points, mapped as in `parse_skin_tone`. -/
def toneOfChar (c : Char) : Option SkinTone :=
  if c = Char.ofNat 0x1F3FB then some .light
  else if c = Char.ofNat 0x1F3FC then some .mediumLight
  else if c = Char.ofNat 0x1F3FD then some .medium
  else if c = Char.ofNat 0x1F3FE then some .mediumDark
  else if c = Char.ofNat 0x1F3FF then some .dark
  else none

/-- The modifier characters found in the glyph of an entry, in glyph order. -/
def tonesOf (e : Entry) : List SkinTone :=
  e.emoji.filterMap toneOfChar

/-- The match of `parse_skin_tone` on the collected modifier list. -/
def classifyTones : List SkinTone → Except BuildErr (Option SkinTone)
  | [] => .ok none
  | [a] => .ok (some a)
  | [.light, .mediumLight] => .ok (some .lightAndMediumLight)
  | [.light, .medium] => .ok (some .lightAndMedium)
  | [.light, .mediumDark] => .ok (some .lightAndMediumDark)
  | [.light, .dark] => .ok (some .lightAndDark)
  | [.mediumLight, .light] => .ok (some .mediumLightAndLight)
  | [.mediumLight, .medium] => .ok (some .mediumLightAndMedium)
  | [.mediumLight, .mediumDark] => .ok (some .mediumLightAndMediumDark)
  | [.mediumLight, .dark] => .ok (some .mediumLightAndDark)
  | [.medium, .light] => .ok (some .mediumAndLight)
  | [.medium, .mediumLight] => .ok (some .mediumAndMediumLight)
  | [.medium, .mediumDark] => .ok (some .mediumAndMediumDark)
  | [.medium, .dark] => .ok (some .mediumAndDark)
  | [.mediumDark, .light] => .ok (some .mediumDarkAndLight)
  | [.mediumDark, .mediumLight] => .ok (some .mediumDarkAndMediumLight)
  | [.mediumDark, .medium] => .ok (some .mediumDarkAndMedium)
  | [.mediumDark, .dark] => .ok (some .mediumDarkAndDark)
  | [.dark, .light] => .ok (some .darkAndLight)
  | [.dark, .mediumLight] => .ok (some .darkAndMediumLight)
  | [.dark, .medium] => .ok (some .darkAndMedium)
  | [.dark, .mediumDark] => .ok (some .darkAndMediumDark)
  | [a, b] => if a = b then .ok (some a) else .error .unrecognizedToneCombination
  | _ => .error .unrecognizedToneCombination

/-- `parse_skin_tone`: classify the glyph of an entry by its skin tone
modifiers (zero, one, or an ordered pair from the fixed table). -/
def parseSkinTone (e : Entry) : Except BuildErr (Option SkinTone) :=
  classifyTones (tonesOf e)

/-- ASCII whitespace, as recognized by `split_ascii_whitespace`. -/
def isAsciiWs (c : Char) : Bool :=
  c = ' ' || c = '\t' || c = '\n' || c = '\x0d' || c = '\x0c'

/-- Accumulator loop for `splitWs`. -/
def splitWsGo : List Char → List Char → List (List Char)
  | [], cur => if cur = [] then [] else [cur.reverse]
  | c :: t, cur =>
      if isAsciiWs c then
        if cur = [] then splitWsGo t [] else cur.reverse :: splitWsGo t []
      else splitWsGo t (c :: cur)

/-- `str::split_ascii_whitespace`: the nonempty maximal runs of
non-whitespace characters. -/
def splitWs (l : List Char) : List (List Char) :=
  splitWsGo l []

/-- `str::split_once`: split at the first occurrence of a separator. -/
def splitOnce (sep : Char) : List Char → Option (List Char × List Char)
  | [] => none
  | c :: t =>
      if c = sep then some ([], t)
      else (splitOnce sep t).map (fun p => (c :: p.1, p.2))

/-- Split at the first Unicode whitespace character, if any. -/
def breakAtWs : List Char → Option (List Char × List Char)
  | [] => none
  | c :: t =>
      if c.isWhitespace then some ([], t)
      else (breakAtWs t).map (fun p => (c :: p.1, p.2))

/-- `str::splitn(3, char::is_whitespace)`: at most three fields, the final
field keeping the remainder verbatim. -/
def splitN3 (l : List Char) : List (List Char) :=
  match breakAtWs l with
  | none => [l]
  | some (a, r) =>
      match breakAtWs r with
      | none => [a, r]
      | some (b, r2) => [a, b, r2]

/-- `str::trim`: drop leading and trailing whitespace. -/
def trimStr (l : List Char) : List Char :=
  ((l.dropWhile Char.isWhitespace).reverse.dropWhile Char.isWhitespace).reverse

/-- Strip a literal leading sequence, returning the remainder on success. -/
def stripPre : List Char → List Char → Option (List Char)
  | [], l => some l
  | _ :: _, [] => none
  | p :: ps, c :: cs => if c = p then stripPre ps cs else none

/-- Decimal digit test for the integer parsers (code points 48 to 57). -/
def isDecDigit (c : Char) : Bool :=
  48 ≤ c.toNat && c.toNat ≤ 57

/-- Accumulate a decimal value, rejecting any non-digit character. -/
def decValGo (acc : Nat) : List Char → Option Nat
  | [] => some acc
  | c :: t =>
      if isDecDigit c then decValGo (acc * 10 + (c.toNat - 48)) t
      else none

/-- `str::parse::<i16>`: optional sign, nonempty decimal digits, result within
the i16 range. -/
def parseI16 (l : List Char) : Option Int :=
  let sd : Int × List Char :=
    match l with
    | '+' :: t => (1, t)
    | '-' :: t => (-1, t)
    | _ => (1, l)
  match sd.2 with
  | [] => none
  | _ :: _ =>
      match decValGo 0 sd.2 with
      | none => none
      | some v =>
          let x : Int := sd.1 * v
          if -32768 ≤ x ∧ x ≤ 32767 then some x else none

/-- Hexadecimal digit value, if the character is a hex digit (decimal
digits, then lowercase and uppercase letter ranges by code point). -/
def hexDigitVal (c : Char) : Option Nat :=
  let n := c.toNat
  if 48 ≤ n && n ≤ 57 then some (n - 48)
  else if 97 ≤ n && n ≤ 102 then some (n - 87)
  else if 65 ≤ n && n ≤ 70 then some (n - 55)
  else none

/-- Accumulate a hexadecimal value, rejecting any non-hex character. -/
def hexValGo (acc : Nat) : List Char → Option Nat
  | [] => some acc
  | c :: t =>
      match hexDigitVal c with
      | some d => hexValGo (acc * 16 + d) t
      | none => none

/-- `u32::from_str_radix(s, 16)`: optional sign, nonempty hex digits, value
within the u32 range (a negative sign only admits zero). -/
def hexU32 (l : List Char) : Option Nat :=
  let sd : Bool × List Char :=
    match l with
    | '+' :: t => (false, t)
    | '-' :: t => (true, t)
    | _ => (false, l)
  match sd.2 with
  | [] => none
  | _ :: _ =>
      match hexValGo 0 sd.2 with
      | none => none
      | some v =>
          if sd.1 then (if v = 0 then some 0 else none)
          else if v < 4294967296 then some v else none

/-- `char::from_u32` succeeds: not a surrogate and at most the maximum
scalar value. -/
def isValidScalar (v : Nat) : Bool :=
  v < 0xD800 || (0xE000 ≤ v && v ≤ 0x10FFFF)

/-- Parse one hex code point token into a character
(body of the closure in `parse_code_points`). -/
def parseCP (tok : List Char) : Except BuildErr Char :=
  match hexU32 tok with
  | none => .error .invalidHex
  | some v => if isValidScalar v then .ok (Char.ofNat v) else .error .invalidScalarValue

/-- Fold `parseCP` over the token list, stopping at the first error
(the `collect` of `parse_code_points`). -/
def parseCPs : List (List Char) → Except BuildErr (List Char)
  | [] => .ok []
  | tok :: rest =>
      match parseCP tok with
      | .error e => .error e
      | .ok c =>
          match parseCPs rest with
          | .error e => .error e
          | .ok cs => .ok (c :: cs)

/-- `parse_code_points`: split on ASCII whitespace and decode every token. -/
def parseCodePoints (s : List Char) : Except BuildErr (List Char) :=
  parseCPs (splitWs s)

/-- `parse_status`: the four status keywords. -/
def parseStatus (s : List Char) : Except BuildErr Status :=
  if s = "fully-qualified".data then .ok .fullyQualified
  else if s = "minimally-qualified".data then .ok .minimallyQualified
  else if s = "unqualified".data then .ok .unqualified
  else if s = "component".data then .ok .component
  else .error .invalidStatus

/-- `parse_unicode_version`: strip the mandatory `E`, split at the first
dot, parse both components as i16. -/
def parseUnicodeVersion (s : List Char) : Except BuildErr Version :=
  match s with
  | 'E' :: rest =>
      match splitOnce '.' rest with
      | none => .error .missingDecimal
      | some (a, b) =>
          match parseI16 a with
          | none => .error .invalidVersionComponent
          | some ma =>
              match parseI16 b with
              | none => .error .invalidVersionComponent
              | some mi => .ok ⟨ma, mi⟩
  | _ => .error .missingE

/-- `Version::try_from(&str)` of unicode-types.  The Rust body splits at the
first dot and unwraps the result, so a string without a dot panics; the
panic is modelled as `none`. -/
def tryFromVersionStr (s : List Char) : Option (Except BuildErr Version) :=
  match splitOnce '.' s with
  | none => none
  | some (a, b) =>
      match parseI16 a with
      | none => some (.error .invalidVersionComponent)
      | some ma =>
          match parseI16 b with
          | none => some (.error .invalidVersionComponent)
          | some mi => some (.ok ⟨ma, mi⟩)

/-- `parse_entry`: tokenize one registry data line and validate the glyph
against its code points. -/
def parseEntry (group : Group) (subgroup : List Char) (line : List Char) :
    Except BuildErr Entry :=
  match splitOnce ';' line with
  | none => .error .expectedCodePoints
  | some (code_points, rest) =>
      match splitOnce '#' rest with
      | none => .error .expectedStatus
      | some (status, rest2) =>
          match splitN3 (trimStr rest2) with
          | [] => .error .expectedEmoji
          | [_] => .error .expectedUnicodeVersion
          | [_, _] => .error .expectedName
          | emoji :: uv :: nm :: _ =>
              match parseCodePoints code_points with
              | .error e => .error e
              | .ok cs =>
                  if emoji ≠ cs then .error .emojiMismatch
                  else
                    match parseStatus (trimStr status) with
                    | .error e => .error e
                    | .ok st =>
                        match parseUnicodeVersion (trimStr uv) with
                        | .error e => .error e
                        | .ok v =>
                            .ok { group := group, subgroup := subgroup,
                                  status := st, unicode_version := v,
                                  emoji := emoji, name := nm,
                                  ios_version := none, tags := [], aliases := [] }

/-- Parser state of `parse_emoji_data`: ambient group and subgroup header
text plus the entries collected so far. -/
def PState := List Char × List Char × List Entry

/-- One iteration of the `parse_emoji_data` loop on a single line. -/
def procLine (group subgroup : List Char) (entries : List Entry)
    (line : List Char) : Except BuildErr (List Char × List Char × List Entry) :=
  if line = [] then .ok (group, subgroup, entries)
  else
    let group2 := match stripPre "# group: ".data line with
      | some g => trimStr g
      | none => group
    let subgroup2 := match stripPre "# subgroup: ".data line with
      | some s => trimStr s
      | none => subgroup
    if line.head? = some '#' then .ok (group2, subgroup2, entries)
    else if group2 = [] then .error .missingGroup
    else if subgroup2 = [] then .error .missingSubgroup
    else
      match tryFromGroup group2 with
      | .error e => .error e
      | .ok g =>
          match parseEntry g subgroup2 line with
          | .error e => .error e
          | .ok e => .ok (group2, subgroup2, entries ++ [e])

/-- Fold of `procLine` across the lines, threading the parser state. -/
def parseLinesSt (group subgroup : List Char) (entries : List Entry) :
    List (List Char) → Except BuildErr (List Char × List Char × List Entry)
  | [] => .ok (group, subgroup, entries)
  | l :: rest =>
      match procLine group subgroup entries l with
      | .error e => .error e
      | .ok (g, s, es) => parseLinesSt g s es rest

/-- `parse_emoji_data`: run the line loop from the empty initial state. -/
def parseEmojiData (lines : List (List Char)) : Except BuildErr (List Entry) :=
  match parseLinesSt [] [] [] lines with
  | .error e => .error e
  | .ok (_, _, es) => .ok es

/-- Greatest index whose element satisfies the predicate
(`iter().enumerate().rev().find` of the build loop). -/
def findRevIdx (p : α → Bool) : List α → Option Nat
  | [] => none
  | x :: xs =>
      match findRevIdx p xs with
      | some i => some (i + 1)
      | none => if p x then some 0 else none

/-- The halving loop of the Rust slice binary search underlying
`partition_point`, on an index window of the list.  The window size shrinks
by at least one per iteration, so structural recursion on a fuel counter
initialized to the window size computes the same fixpoint as the Rust loop.
An out-of-range probe (never reached from `partitionPoint`) counts as a
failing predicate. -/
def ppGo (pred : α → Bool) (l : List α) : Nat → Nat → Nat → Nat
  | 0, base, _ => base
  | fuel + 1, base, size =>
      if 1 < size then
        let half := size / 2
        let mid := base + half
        let base2 := match l[mid]? with
          | some x => if pred x then mid else base
          | none => base
        ppGo pred l fuel base2 (size - half)
      else base

/-- `slice::partition_point` as implemented by the Rust standard library
binary search: an empty slice gives 0, otherwise the final probe at `base`
decides between `base` and `base + 1`. -/
def partitionPoint (pred : α → Bool) (l : List α) : Nat :=
  if l.length = 0 then 0
  else
    let base := ppGo pred l l.length 0 l.length
    match l[base]? with
    | some x => if pred x then base + 1 else base
    | none => base

/-- Apply a function to the last element of a list (`last_mut`). -/
def updateLast (f : α → α) : List α → List α
  | [] => []
  | [x] => [f x]
  | x :: y :: xs => x :: updateLast f (y :: xs)

/-- Catalog enrichment step of the build loop: first catalog record with
an exactly equal glyph donates its metadata. -/
def enrich (gemojis : List Gemoji) (e : Entry) : Entry :=
  match gemojis.find? (fun g => decide (g.emoji = e.emoji)) with
  | some g => { e with ios_version := some g.ios_version,
                       tags := g.tags, aliases := g.aliases }
  | none => e

/-- Aggregated records whose tone is absent or `Default` can anchor a
tone sibling. -/
def isNoneOrDefault : Option SkinTone → Bool
  | none => true
  | some .default => true
  | some _ => false

/-- The backward-search predicate of the build loop: anchor candidates share
the group and subgroup of the incoming entry. -/
def sibPred (entry : Entry) (e : Emoji) : Bool :=
  isNoneOrDefault e.skin_tone && decide (e.entry.group = entry.group)
    && decide (e.entry.subgroup = entry.subgroup)

/-- Promotion of the anchor record when a tone sibling arrives: tone becomes
`Default` and the sibling count grows by one. -/
def promoteDef (d : Emoji) : Emoji :=
  { d with skin_tone := some .default, skin_tones := d.skin_tones + 1 }

/-- One iteration of the `build` aggregation loop on an (already enriched)
entry.  `Status::Component` reaching this point is the Rust
`unreachable!()` panic. -/
def stepEntry (emojis : List Emoji) (entry : Entry) : Except BuildErr (List Emoji) :=
  match entry.status with
  | .component => .error .panicUnreachable
  | .minimallyQualified | .unqualified =>
      match emojis with
      | [] => .error .noCanonicalVariant
      | _ :: _ =>
          .ok (updateLast
            (fun e => { e with variations := e.variations ++ [entry.emoji] }) emojis)
  | .fullyQualified =>
      match parseSkinTone entry with
      | .error e => .error e
      | .ok none => .ok (emojis ++ [⟨entry, 1, none, []⟩])
      | .ok (some t) =>
          if t = .default then .ok (emojis ++ [⟨entry, 1, some .default, []⟩])
          else
            match findRevIdx (sibPred entry) emojis with
            | none => .error .noDefaultToneSibling
            | some i =>
                let emojis2 := List.modify promoteDef i emojis
                let j := partitionPoint
                  (fun e => optToneLt e.skin_tone (some t)) (emojis2.drop i)
                .ok (emojis2.insertIdx (i + j) ⟨entry, 1, some t, []⟩)

/-- The `build` loop over a list of raw entries: `Component`-group entries
are skipped, the rest are enriched and aggregated. -/
def runEntries (gemojis : List Gemoji) :
    List Emoji → List Entry → Except BuildErr (List Emoji)
  | emojis, [] => .ok emojis
  | emojis, e :: rest =>
      if e.group = Group.component then runEntries gemojis emojis rest
      else
        match stepEntry emojis (enrich gemojis e) with
        | .error err => .error err
        | .ok emojis2 => runEntries gemojis emojis2 rest

/-- `build` restricted to its pure core: aggregate a parsed entry list
against a catalog, starting from the empty collection. -/
def buildEmojis (gemojis : List Gemoji) (entries : List Entry) :
    Except BuildErr (List Emoji) :=
  runEntries gemojis [] entries

/-- Character-wise lowercasing of a string (model of `str::to_lowercase`). -/
def lowerStr (l : List Char) : List Char :=
  l.map Char.toLower

/-- Leading-sequence test used by the substring search. -/
def isPrefixList (needle hay : List Char) : Bool :=
  match needle, hay with
  | [], _ => true
  | _ :: _, [] => false
  | a :: n, b :: h => a = b && isPrefixList n h

/-- Substring test (model of `str::contains` with a string pattern). -/
def containsStr : List Char → List Char → Bool
  | [], needle => isPrefixList needle []
  | c :: t, needle => isPrefixList needle (c :: t) || containsStr t needle

/-- `Emoji::matches_search`: empty query accepts, otherwise case-insensitive
substring match over glyph, name, subgroup, tags and aliases, with the
early-return structure of the source. -/
def matchesSearch (e : Emoji) (q : List Char) : Bool :=
  if q = [] then true
  else
    let ql := lowerStr q
    if containsStr (lowerStr e.entry.emoji) ql then true
    else if containsStr (lowerStr e.entry.name) ql then true
    else if containsStr (lowerStr e.entry.subgroup) ql then true
    else if e.entry.tags.any (fun t => containsStr (lowerStr t) ql) then true
    else e.entry.aliases.any (fun a => containsStr (lowerStr a) ql)

/-! ## Helper lemmas about the list machinery -/

theorem updateLast_eq (f : α → α) :
    ∀ (l : List α) (h : l ≠ []),
      updateLast f l = l.dropLast ++ [f (l.getLast h)]
  | [], h => absurd rfl h
  | [x], _ => rfl
  | x :: y :: xs, _ => by
      have ih := updateLast_eq f (y :: xs) (by simp)
      simp [updateLast, ih, List.getLast]

theorem findRevIdx_eq_none (p : α → Bool) :
    ∀ l : List α, findRevIdx p l = none ↔ ∀ x ∈ l, p x = false := by
  intro l
  induction l with
  | nil => simp [findRevIdx]
  | cons x xs ih =>
      cases hx : findRevIdx p xs with
      | some i =>
          simp only [findRevIdx, hx]
          constructor
          · intro h; cases h
          · intro h
            have : findRevIdx p xs = none := (ih).mpr (fun y hy => h y (by simp [hy]))
            rw [hx] at this; cases this
      | none =>
          simp only [findRevIdx, hx]
          rw [ih] at hx
          constructor
          · intro h
            by_cases hp : p x = true
            · simp [hp] at h
            · intro y hy
              rcases List.mem_cons.mp hy with rfl | hmem
              · simpa using hp
              · exact hx y hmem
          · intro h
            have : p x = false := h x (by simp)
            simp [this]

theorem findRevIdx_some (p : α → Bool) :
    ∀ (l : List α) (i : Nat), findRevIdx p l = some i →
      (∃ x, l[i]? = some x ∧ p x = true) ∧
        ∀ k, i < k → ∀ y, l[k]? = some y → p y = false := by
  intro l
  induction l with
  | nil => intro i h; simp [findRevIdx] at h
  | cons x xs ih =>
      intro i h
      cases hx : findRevIdx p xs with
      | some i2 =>
          simp only [findRevIdx, hx] at h
          obtain rfl : i2 + 1 = i := by exact_mod_cast Option.some.inj h
          obtain ⟨⟨z, hz, hpz⟩, hmax⟩ := ih i2 hx
          refine ⟨⟨z, by simpa using hz, hpz⟩, ?_⟩
          intro k hk y hy
          match k, hk with
          | k2 + 1, hk =>
              exact hmax k2 (Nat.lt_of_succ_lt_succ hk) y (by simpa using hy)
      | none =>
          simp only [findRevIdx, hx] at h
          by_cases hp : p x = true
          · simp only [hp, if_true] at h
            obtain rfl : (0 : Nat) = i := by exact_mod_cast Option.some.inj h
            refine ⟨⟨x, by simp, hp⟩, ?_⟩
            intro k hk y hy
            match k, hk with
            | k2 + 1, _ =>
                have hmem : y ∈ xs := by
                  have hy2 := hy
                  simp only [List.getElem?_cons_succ] at hy2
                  exact List.getElem?_mem hy2
                exact ((findRevIdx_eq_none p xs).mp hx) y hmem
          · simp [hp] at h

theorem getElem?_insertIdx_of_lt (a : α) :
    ∀ (n k : Nat) (l : List α), k < n → (l.insertIdx n a)[k]? = l[k]? := by
  intro n
  induction n with
  | zero => intro k l hk; cases hk
  | succ n ih =>
      intro k l hk
      cases l with
      | nil => simp [List.insertIdx]
      | cons x xs =>
          rw [List.insertIdx_succ_cons]
          cases k with
          | zero => simp
          | succ k2 =>
              simp only [List.getElem?_cons_succ]
              exact ih k2 xs (Nat.lt_of_succ_lt_succ hk)

theorem partitionPoint_pos (pred : α → Bool) (l : List α) (x : α)
    (hx : l[0]? = some x) (hp : pred x = true) :
    0 < partitionPoint pred l := by
  have hlen : l.length ≠ 0 := by
    intro h0
    rw [List.length_eq_zero] at h0
    subst h0; simp at hx
  rcases hbase : ppGo pred l l.length 0 l.length with _ | b
  · simp only [partitionPoint, if_neg hlen, hbase, hx, hp, if_true]
    simp
  · simp only [partitionPoint, if_neg hlen, hbase]
    cases hprobe : l[b + 1]? with
    | none => simp [hprobe]
    | some y =>
        by_cases hy : pred y = true <;> simp [hprobe, hy]

theorem isPrefixList_iff :
    ∀ needle hay : List Char,
      isPrefixList needle hay = true ↔ ∃ post, hay = needle ++ post := by
  intro needle
  induction needle with
  | nil => intro hay; simp [isPrefixList]
  | cons a n ih =>
      intro hay
      cases hay with
      | nil => simp [isPrefixList]
      | cons b h =>
          simp only [isPrefixList, Bool.and_eq_true, decide_eq_true_eq, ih,
            List.cons_append, List.cons.injEq]
          constructor
          · rintro ⟨rfl, post, rfl⟩; exact ⟨post, rfl, rfl⟩
          · rintro ⟨post, rfl, rfl⟩; exact ⟨rfl, post, rfl⟩

theorem containsStr_iff :
    ∀ hay needle : List Char,
      containsStr hay needle = true ↔ ∃ pre post, hay = pre ++ needle ++ post := by
  intro hay
  induction hay with
  | nil =>
      intro needle
      simp only [containsStr, isPrefixList_iff]
      constructor
      · rintro ⟨post, h⟩; exact ⟨[], post, h⟩
      · rintro ⟨pre, post, h⟩
        refine ⟨post, ?_⟩
        cases pre with
        | nil => simpa using h
        | cons p ps => simp at h
  | cons c t ih =>
      intro needle
      simp only [containsStr, Bool.or_eq_true, isPrefixList_iff, ih]
      constructor
      · rintro (⟨post, h⟩ | ⟨pre, post, h⟩)
        · exact ⟨[], post, by simpa using h⟩
        · exact ⟨c :: pre, post, by simp [h]⟩
      · rintro ⟨pre, post, h⟩
        cases pre with
        | nil => exact Or.inl ⟨post, by simpa using h⟩
        | cons p ps =>
            simp only [List.cons_append, List.cons.injEq] at h
            exact Or.inr ⟨ps, post, by simp [h.1, h.2]⟩

/-! ## Permutation enumeration (used to quantify over feeding orders) -/

/-- All ways of inserting an element into a list. -/
def insertEverywhere (a : α) : List α → List (List α)
  | [] => [[a]]
  | x :: xs => (a :: x :: xs) :: (insertEverywhere a xs).map (x :: ·)

/-- All permutations of a list, by inserting the head everywhere. -/
def allPerms : List α → List (List α)
  | [] => [[]]
  | x :: xs => (allPerms xs).flatMap (insertEverywhere x)

theorem mem_insertEverywhere_of [DecidableEq α] (x : α) :
    ∀ p : List α, x ∈ p → p ∈ insertEverywhere x (p.erase x) := by
  intro p
  induction p with
  | nil => intro hx; cases hx
  | cons y t ih =>
      intro hx
      by_cases hxy : y = x
      · subst hxy
        rw [List.erase_cons_head]
        cases t <;> simp [insertEverywhere]
      · have hxt : x ∈ t := by
          rcases List.mem_cons.mp hx with rfl | h2
          · exact absurd rfl hxy
          · exact h2
        rw [List.erase_cons_tail (by simpa using hxy)]
        simp only [insertEverywhere]
        exact List.mem_cons_of_mem _ (List.mem_map_of_mem _ (ih hxt))

theorem perm_mem_allPerms [DecidableEq α] :
    ∀ (l p : List α), p.Perm l → p ∈ allPerms l := by
  intro l
  induction l with
  | nil =>
      intro p hp
      rw [List.perm_nil] at hp
      subst hp
      simp [allPerms]
  | cons x xs ih =>
      intro p hp
      have hx : x ∈ p := hp.symm.subset (List.mem_cons_self _ _)
      have he : (p.erase x).Perm xs :=
        ((List.cons_perm_iff_perm_erase.mp hp.symm).2).symm
      simp only [allPerms, List.mem_flatMap]
      exact ⟨p.erase x, ih _ he, mem_insertEverywhere_of x p hx⟩

/-! ## Facts about the parsers -/

theorem parseCPs_error :
    ∀ toks e, parseCPs toks = .error e →
      e = BuildErr.invalidHex ∨ e = BuildErr.invalidScalarValue := by
  intro toks
  induction toks with
  | nil => intro e h; cases h
  | cons tok rest ih =>
      intro e h
      simp only [parseCPs] at h
      cases hcp : parseCP tok with
      | error e2 =>
          rw [hcp] at h
          cases h
          unfold parseCP at hcp
          cases hv : hexU32 tok with
          | none => rw [hv] at hcp; cases hcp; exact Or.inl rfl
          | some v =>
              rw [hv] at hcp
              by_cases hval : isValidScalar v = true
              · simp [hval] at hcp
              · simp only [hval, if_false, Bool.false_eq_true] at hcp
                cases hcp
                exact Or.inr rfl
      | ok c =>
          rw [hcp] at h
          cases hrest : parseCPs rest with
          | error e2 => rw [hrest] at h; cases h; exact ih _ hrest
          | ok cs => rw [hrest] at h; cases h

theorem parseCPs_invalid_scalar :
    ∀ toks, (∀ tk ∈ toks, hexU32 tk ≠ none) →
      (∃ tk ∈ toks, ∃ v, hexU32 tk = some v ∧ isValidScalar v = false) →
      parseCPs toks = .error .invalidScalarValue := by
  intro toks
  induction toks with
  | nil => rintro _ ⟨tk, h, _⟩; cases h
  | cons tok rest ih =>
      rintro hall ⟨tk, htk, v, hv, hval⟩
      cases hv0 : hexU32 tok with
      | none => exact absurd hv0 (hall tok (List.mem_cons_self _ _))
      | some v0 =>
          by_cases hval0 : isValidScalar v0 = true
          · have htkr : tk ∈ rest := by
              rcases List.mem_cons.mp htk with rfl | h2
              · rw [hv0] at hv
                cases hv
                rw [hval0] at hval
                cases hval
              · exact h2
            have hres := ih (fun t ht => hall t (List.mem_cons_of_mem _ ht))
              ⟨tk, htkr, v, hv, hval⟩
            simp [parseCPs, parseCP, hv0, hval0, hres]
          · simp [parseCPs, parseCP, hv0, hval0]

theorem parseLinesSt_append (xs : List (List Char)) :
    ∀ (ys : List (List Char)) (g s : List Char) (es : List Entry),
      parseLinesSt g s es (xs ++ ys) =
        match parseLinesSt g s es xs with
        | .error e => .error e
        | .ok (g2, s2, es2) => parseLinesSt g2 s2 es2 ys := by
  induction xs with
  | nil => intro ys g s es; rfl
  | cons l rest ih =>
      intro ys g s es
      simp only [List.cons_append, parseLinesSt]
      cases procLine g s es l with
      | error e => rfl
      | ok st => exact ih ys st.1 st.2.1 st.2.2

/-! ## Facts about skin tone classification -/

theorem SkinTone.idx_pos (t : SkinTone) (h : t ≠ .default) : 0 < t.idx := by
  cases t
  · exact absurd rfl h
  all_goals decide

theorem toneOfChar_cases (c : Char) (t : SkinTone) (h : toneOfChar c = some t) :
    t = .light ∨ t = .mediumLight ∨ t = .medium ∨ t = .mediumDark ∨ t = .dark := by
  unfold toneOfChar at h
  split_ifs at h <;> simp_all

theorem tonesOf_mem (e : Entry) (t : SkinTone) (h : t ∈ tonesOf e) :
    t = .light ∨ t = .mediumLight ∨ t = .medium ∨ t = .mediumDark ∨ t = .dark := by
  obtain ⟨c, _, hc⟩ := List.mem_filterMap.mp h
  exact toneOfChar_cases c t hc

theorem splitN3_shape (l : List Char) :
    (splitN3 l).length = 1 ∨ (splitN3 l).length = 2 ∨ (splitN3 l).length = 3 := by
  unfold splitN3
  split
  · simp
  · split <;> simp

theorem parseStatus_error (s : List Char) (e : BuildErr)
    (h : parseStatus s = .error e) : e = .invalidStatus := by
  unfold parseStatus at h
  split_ifs at h <;> cases h <;> rfl

theorem parseUnicodeVersion_error (s : List Char) (e : BuildErr)
    (h : parseUnicodeVersion s = .error e) :
    e = .missingE ∨ e = .missingDecimal ∨ e = .invalidVersionComponent := by
  unfold parseUnicodeVersion at h
  split at h
  · split at h
    · cases h; simp
    · split at h
      · cases h; simp
      · split at h
        · cases h; simp
        · cases h
  · cases h; simp

theorem parseEntry_ok_shape (g : Group) (sub line : List Char) (ent : Entry)
    (h : parseEntry g sub line = .ok ent) :
    ∃ cp rest status rest2 em uv nm cs st v,
      splitOnce ';' line = some (cp, rest) ∧
      splitOnce '#' rest = some (status, rest2) ∧
      splitN3 (trimStr rest2) = [em, uv, nm] ∧
      parseCodePoints cp = .ok cs ∧ em = cs ∧
      parseStatus (trimStr status) = .ok st ∧
      parseUnicodeVersion (trimStr uv) = .ok v ∧
      ent = { group := g, subgroup := sub, status := st, unicode_version := v,
              emoji := em, name := nm, ios_version := none, tags := [],
              aliases := [] } := by
  unfold parseEntry at h
  split at h
  · cases h
  rename_i cp rest h1
  split at h
  · cases h
  rename_i status rest2 h2
  split at h
  · cases h
  · cases h
  · cases h
  rename_i em uv nm tail h3
  have htail : tail = [] := by
    rcases splitN3_shape (trimStr rest2) with hs | hs | hs <;>
      (rw [h3] at hs; simp at hs; try simp [hs])
  subst htail
  split at h
  · cases h
  rename_i cs h4
  split at h
  · cases h
  rename_i hne
  split at h
  · cases h
  rename_i st h5
  split at h
  · cases h
  rename_i v h6
  cases h
  exact ⟨cp, rest, status, rest2, em, uv, nm, cs, st, v, h1, h2, h3, h4,
    not_not.mp hne, h5, h6, rfl⟩

theorem parseEntry_mismatch_iff (g : Group) (sub line : List Char) :
    parseEntry g sub line = .error .emojiMismatch ↔
      ∃ cp rest status rest2 em uv nm cs,
        splitOnce ';' line = some (cp, rest) ∧
        splitOnce '#' rest = some (status, rest2) ∧
        splitN3 (trimStr rest2) = [em, uv, nm] ∧
        parseCodePoints cp = .ok cs ∧ em ≠ cs := by
  constructor
  · intro h
    unfold parseEntry at h
    split at h
    · cases h
    rename_i cp rest h1
    split at h
    · cases h
    rename_i status rest2 h2
    split at h
    · cases h
    · cases h
    · cases h
    rename_i em uv nm tail h3
    have htail : tail = [] := by
      rcases splitN3_shape (trimStr rest2) with hs | hs | hs <;>
        (rw [h3] at hs; simp at hs; try simp [hs])
    subst htail
    split at h
    · rename_i e2 hcp
      cases h
      rcases parseCPs_error _ _ hcp with h5 | h5 <;> cases h5
    rename_i cs h4
    split at h
    · rename_i hne
      exact ⟨cp, rest, status, rest2, em, uv, nm, cs, h1, h2, h3, h4, hne⟩
    rename_i hne
    split at h
    · rename_i e2 h5
      cases h
      cases parseStatus_error _ _ h5
    rename_i st h5
    split at h
    · rename_i e2 h6
      cases h
      rcases parseUnicodeVersion_error _ _ h6 with h7 | h7 | h7 <;> cases h7
    · cases h
  · rintro ⟨cp, rest, status, rest2, em, uv, nm, cs, h1, h2, h3, h4, hne⟩
    unfold parseEntry
    simp only [h1, h2, h3, h4]
    simp [hne]

/-! ## Concrete fixtures used by witnesses and counterexamples -/

/-- Skin tone modifier characters. -/
def chLight : Char := Char.ofNat 0x1F3FB

def chML : Char := Char.ofNat 0x1F3FC

def chMed : Char := Char.ofNat 0x1F3FD

def chMD : Char := Char.ofNat 0x1F3FE

def chDark : Char := Char.ofNat 0x1F3FF

/-- A fully qualified People & Body fixture entry. -/
def mkFQ (sub em : List Char) : Entry :=
  ⟨.peopleAndBody, sub, .fullyQualified, ⟨1, 0⟩, em, [], none, [], []⟩

def exBase : Entry := mkFQ ['s'] ['a']

def exDark : Entry := mkFQ ['s'] ['a', chDark]

def exLight : Entry := mkFQ ['s'] ['a', chLight]

def exML : Entry := mkFQ ['s'] ['a', chML]

def exMed : Entry := mkFQ ['s'] ['a', chMed]

def exMD : Entry := mkFQ ['s'] ['a', chMD]

def exB : Entry := mkFQ ['t'] ['b']

def exC : Entry := mkFQ ['u'] ['c']

def exD : Entry := mkFQ ['v'] ['d']

def exMQ : Entry :=
  ⟨.peopleAndBody, ['s'], .minimallyQualified, ⟨1, 0⟩, ['m'], [], none, [], []⟩

def exCompStatus : Entry :=
  ⟨.flags, ['f'], .component, ⟨1, 0⟩, ['x'], [], none, [], []⟩

def exCompGroup : Entry :=
  ⟨.component, ['g'], .fullyQualified, ⟨1, 0⟩, ['y'], [], none, [], []⟩

def exPair : Entry := mkFQ ['s'] ['a', chLight, chMed]

/-- The five tone siblings of the fixture family. -/
def sibEntries : List Entry := [exLight, exML, exMed, exMD, exDark]

/-- Expected aggregation of the fixture family: promoted base first, then the
five siblings in declaration order. -/
def c3expected : List Emoji :=
  [⟨exBase, 6, some .default, []⟩,
   ⟨exLight, 1, some .light, []⟩,
   ⟨exML, 1, some .mediumLight, []⟩,
   ⟨exMed, 1, some .medium, []⟩,
   ⟨exMD, 1, some .mediumDark, []⟩,
   ⟨exDark, 1, some .dark, []⟩]

/-- Input of the contiguity counterexample: a family, one of its tone
siblings, three unrelated records, then a second tone sibling. -/
def c3input : List Entry := [exBase, exDark, exB, exC, exD, exLight]

/-- Indices of the records satisfying a predicate. -/
def idxsWhere (p : Emoji → Bool) (l : List Emoji) : List Nat :=
  (List.range l.length).filter fun i =>
    match l[i]? with
    | some e => p e
    | none => false

/-- Whether a list of indices is a contiguous run. -/
def contiguousIdxs : List Nat → Bool
  | [] => true
  | [_] => true
  | a :: b :: t => decide (b = a + 1) && contiguousIdxs (b :: t)

end Emotif

deriving instance DecidableEq for Except

namespace Emotif

set_option maxRecDepth 100000 in
/-- Key computation for claim C3: a base glyph followed by the five single
tone siblings, fed in every one of the 120 orders, aggregates to the sorted
family. -/
theorem c3_all_orders_check :
    ∀ q ∈ allPerms sibEntries, buildEmojis [] (exBase :: q) = .ok c3expected := by
  decide

/-! ## Claim theorems -/

/-- C1 (counterexample).  Input: base glyph, dark sibling, light sibling,
then a minimally qualified entry.  The light sibling is the most recently
aggregated fully qualified record (it was inserted at index 1, before the
dark sibling), yet the variation `m` attaches to the dark record at index 2
(the last element of the collection), and the light record keeps no
variations.  This refutes the claim that the variation is appended to the
most recently aggregated record. -/
theorem c1_counterexample :
    (buildEmojis [] [exBase, exDark, exLight, exMQ]).map
        (fun l => l.map fun e => (e.entry.emoji, e.skin_tone, e.variations)) =
      .ok [(['a'], some .default, []),
           (['a', chLight], some .light, []),
           (['a', chDark], some .dark, [['m']])] := by
  decide

/-- C1 (amended): a `MinimallyQualified` or `Unqualified` entry appends its
glyph to the variations of the LAST record of the aggregated collection
(which is not always the most recently aggregated record), and the build
fails with the no-canonical-variant error when the collection is empty. -/
theorem c1_theorem (emojis : List Emoji) (entry : Entry)
    (hst : entry.status = .minimallyQualified ∨ entry.status = .unqualified) :
    (emojis = [] → stepEntry emojis entry = .error .noCanonicalVariant) ∧
    (∀ h : emojis ≠ [],
      stepEntry emojis entry =
        .ok (emojis.dropLast ++
          [{ emojis.getLast h with
              variations := (emojis.getLast h).variations ++ [entry.emoji] }])) := by
  constructor
  · intro he
    subst he
    rcases hst with hst | hst <;> simp [stepEntry, hst]
  · intro hne
    cases emojis with
    | nil => exact absurd rfl hne
    | cons x xs =>
        rcases hst with hst | hst <;>
          simp [stepEntry, hst, updateLast_eq _ _ hne]

/-- C1 witness: the amended theorem applied to a singleton collection. -/
theorem c1_witness :
    stepEntry [⟨exBase, 1, none, []⟩] exMQ =
      .ok [⟨exBase, 1, none, [['m']]⟩] := by
  have h := (c1_theorem [⟨exBase, 1, none, []⟩] exMQ (Or.inl rfl)).2 (by simp)
  simpa using h

/-- C2 (counterexample).  A `Component`-status entry whose group is not
`Component` is not discarded: it reaches the `unreachable` panic of the
aggregation loop, so the build neither skips it nor succeeds. -/
theorem c2_counterexample :
    buildEmojis [] [exCompStatus] = .error .panicUnreachable ∧
    buildEmojis [] [exCompStatus] ≠ .ok [] := by
  constructor
  · decide
  · decide

/-- C2 (amended): an entry whose GROUP is `Component` is discarded entirely
by the aggregation loop — no record, no error, and the rest of the input is
processed as if the entry were absent.  (A `Component`-STATUS entry outside
the `Component` group instead hits the `unreachable` panic, as the
counterexample shows.) -/
theorem c2_theorem (gemojis : List Gemoji) (emojis : List Emoji) (e : Entry)
    (rest : List Entry) (hg : e.group = .component) :
    runEntries gemojis emojis (e :: rest) = runEntries gemojis emojis rest := by
  simp [runEntries, hg]

/-- C2 witness: a component-group entry alone aggregates to the empty
collection. -/
theorem c2_witness : runEntries [] [] [exCompGroup] = .ok [] := by
  rw [c2_theorem [] [] exCompGroup [] rfl]
  rfl

/-- C3 (counterexample).  Input: base glyph, its dark sibling, three
records of other families, then the light sibling of the first family.
The binary-search insertion point runs over the whole remaining collection,
where the trailing `skin_tone = None` records satisfy the search predicate,
so the light sibling lands at the very end: the family occupies indices
0, 1 and 5 — not a contiguous run — and its dark sibling precedes its light
sibling.  This refutes the claimed invariant for arbitrary prefixes. -/
theorem c3_counterexample :
    (buildEmojis [] c3input).map
        (fun out =>
          contiguousIdxs (idxsWhere (fun e => decide (e.entry.subgroup = ['s'])) out)) =
      .ok false ∧
    (buildEmojis [] c3input).map
        (fun out => out.map fun e => (e.entry.subgroup, e.skin_tone)) =
      .ok [(['s'], some .default), (['s'], some .dark), (['t'], none),
           (['u'], none), (['v'], none), (['s'], some .light)] := by
  constructor
  · decide
  · decide

/-- C3 (amended): for a family processed with no unrelated records after it
— a base glyph followed by its five single-tone siblings in any order —
the aggregated output is the base as `Some(Default)` with `skin_tones = 6`
followed by the five siblings in `SkinTone` order, each with
`skin_tones = 1`.  (With unrelated records between the family run and the
end of the collection the claimed contiguity invariant fails, as the
counterexample shows.) -/
theorem c3_theorem (p : List Entry) (hp : p.Perm sibEntries) :
    buildEmojis [] (exBase :: p) = .ok c3expected :=
  c3_all_orders_check p (perm_mem_allPerms sibEntries p hp)

/-- C3 witness: the amended theorem applied to the source order. -/
theorem c3_witness : buildEmojis [] (exBase :: sibEntries) = .ok c3expected :=
  c3_theorem sibEntries (List.Perm.refl _)

/-- The fixed table of the twenty recognized ordered pairs of distinct base
tones, read off the twenty pair arms of `parse_skin_tone` (the value on
arguments outside those twenty pairs is irrelevant junk). -/
def pairTone : SkinTone → SkinTone → SkinTone
  | .light, .mediumLight => .lightAndMediumLight
  | .light, .medium => .lightAndMedium
  | .light, .mediumDark => .lightAndMediumDark
  | .light, .dark => .lightAndDark
  | .mediumLight, .light => .mediumLightAndLight
  | .mediumLight, .medium => .mediumLightAndMedium
  | .mediumLight, .mediumDark => .mediumLightAndMediumDark
  | .mediumLight, .dark => .mediumLightAndDark
  | .medium, .light => .mediumAndLight
  | .medium, .mediumLight => .mediumAndMediumLight
  | .medium, .mediumDark => .mediumAndMediumDark
  | .medium, .dark => .mediumAndDark
  | .mediumDark, .light => .mediumDarkAndLight
  | .mediumDark, .mediumLight => .mediumDarkAndMediumLight
  | .mediumDark, .medium => .mediumDarkAndMedium
  | .mediumDark, .dark => .mediumDarkAndDark
  | .dark, .light => .darkAndLight
  | .dark, .mediumLight => .darkAndMediumLight
  | .dark, .medium => .darkAndMedium
  | .dark, .mediumDark => .darkAndMediumDark
  | a, _ => a

/-- C4: skin tone classification of a glyph by its modifier characters.
Zero modifiers yield `none`; exactly one yields that base tone; two distinct
modifiers yield the ordered-pair variant of the fixed table, the
first-encountered modifier first; two identical modifiers collapse to the
single base tone; three or more modifiers fail with the
unrecognized-tone-combination error. -/
theorem c4_theorem (e : Entry) :
    (tonesOf e = [] → parseSkinTone e = .ok none) ∧
    (∀ a, tonesOf e = [a] → parseSkinTone e = .ok (some a)) ∧
    (∀ a b, tonesOf e = [a, b] → a ≠ b →
      parseSkinTone e = .ok (some (pairTone a b))) ∧
    (∀ a b, tonesOf e = [a, b] → a = b → parseSkinTone e = .ok (some a)) ∧
    (3 ≤ (tonesOf e).length →
      parseSkinTone e = .error .unrecognizedToneCombination) := by
  refine ⟨?_, ?_, ?_, ?_, ?_⟩
  · intro h
    unfold parseSkinTone
    rw [h]
    rfl
  · intro a h
    unfold parseSkinTone
    rw [h]
    cases a <;> rfl
  · intro a b h hne
    have ha : a = .light ∨ a = .mediumLight ∨ a = .medium ∨ a = .mediumDark ∨
        a = .dark := tonesOf_mem e a (by simp [h])
    have hb : b = .light ∨ b = .mediumLight ∨ b = .medium ∨ b = .mediumDark ∨
        b = .dark := tonesOf_mem e b (by simp [h])
    unfold parseSkinTone
    rw [h]
    rcases ha with rfl | rfl | rfl | rfl | rfl <;>
      rcases hb with rfl | rfl | rfl | rfl | rfl <;>
        first
          | exact absurd rfl hne
          | rfl
  · intro a b h heq
    subst heq
    have ha : a = .light ∨ a = .mediumLight ∨ a = .medium ∨ a = .mediumDark ∨
        a = .dark := tonesOf_mem e a (by simp [h])
    unfold parseSkinTone
    rw [h]
    rcases ha with rfl | rfl | rfl | rfl | rfl <;> rfl
  · intro h3
    rcases hl : tonesOf e with _ | ⟨a, _ | ⟨b, _ | ⟨c, rest⟩⟩⟩
    · rw [hl] at h3; simp at h3
    · rw [hl] at h3; simp at h3
    · rw [hl] at h3; simp at h3
    · have ha : a = .light ∨ a = .mediumLight ∨ a = .medium ∨ a = .mediumDark ∨
          a = .dark := tonesOf_mem e a (by simp [hl])
      have hb : b = .light ∨ b = .mediumLight ∨ b = .medium ∨ b = .mediumDark ∨
          b = .dark := tonesOf_mem e b (by simp [hl])
      unfold parseSkinTone
      rw [hl]
      rcases ha with rfl | rfl | rfl | rfl | rfl <;>
        rcases hb with rfl | rfl | rfl | rfl | rfl <;> rfl

/-- C4 witness: a glyph carrying the light then medium modifiers classifies
to the ordered pair from the table. -/
theorem c4_witness :
    parseSkinTone exPair = .ok (some (pairTone .light .medium)) :=
  (c4_theorem exPair).2.2.1 .light .medium (by decide) (by decide)

/-- C5: when a fully qualified entry classifies to a non-default tone, the
aggregator searches backward for the nearest record that can anchor the
sibling (tone absent or `Default`, same group and subgroup).  If none
exists the step fails with the no-default-tone-sibling error; otherwise the
anchor — the greatest such index — is promoted to `Some(Default)` with its
sibling count incremented, in place. -/
theorem c5_theorem (emojis : List Emoji) (entry : Entry) (t : SkinTone)
    (hst : entry.status = .fullyQualified)
    (ht : parseSkinTone entry = .ok (some t)) (hd : t ≠ .default) :
    (findRevIdx (sibPred entry) emojis = none →
      (∀ x ∈ emojis, sibPred entry x = false) ∧
        stepEntry emojis entry = .error .noDefaultToneSibling) ∧
    (∀ i, findRevIdx (sibPred entry) emojis = some i →
      ∃ d, emojis[i]? = some d ∧ sibPred entry d = true ∧
        (∀ k, i < k → ∀ y, emojis[k]? = some y → sibPred entry y = false) ∧
        ∃ l, stepEntry emojis entry = .ok l ∧ l[i]? = some (promoteDef d)) := by
  constructor
  · intro hnone
    refine ⟨(findRevIdx_eq_none _ _).mp hnone, ?_⟩
    simp [stepEntry, hst, ht, hd, hnone]
  · intro i hsome
    obtain ⟨⟨d, hdget, hdp⟩, hmax⟩ := findRevIdx_some _ _ _ hsome
    refine ⟨d, hdget, hdp, hmax, ?_⟩
    have hmod : (List.modify promoteDef i emojis)[i]? = some (promoteDef d) := by
      rw [List.getElem?_modify, hdget]
      simp
    have hdrop : ((List.modify promoteDef i emojis).drop i)[0]? =
        some (promoteDef d) := by
      rw [List.getElem?_drop]
      simpa using hmod
    have hpred : optToneLt (promoteDef d).skin_tone (some t) = true := by
      simp only [promoteDef, optToneLt]
      exact decide_eq_true (SkinTone.idx_pos t hd)
    have hjpos : 0 < partitionPoint
        (fun e => optToneLt e.skin_tone (some t))
        ((List.modify promoteDef i emojis).drop i) :=
      partitionPoint_pos _ _ _ hdrop hpred
    refine ⟨(List.modify promoteDef i emojis).insertIdx
        (i + partitionPoint (fun e => optToneLt e.skin_tone (some t))
          ((List.modify promoteDef i emojis).drop i))
        ⟨entry, 1, some t, []⟩, ?_, ?_⟩
    · simp only [stepEntry, hst, ht, hsome]
      rw [if_neg hd]
    · rw [getElem?_insertIdx_of_lt _ _ _ _ (Nat.lt_add_of_pos_right hjpos)]
      exact hmod

/-- C5 witness: a light sibling anchors on a matching singleton collection,
promoting it in place. -/
theorem c5_witness :
    ∃ d, ([⟨exBase, 1, none, []⟩] : List Emoji)[0]? = some d ∧
      sibPred exLight d = true ∧
      ∃ l, stepEntry [⟨exBase, 1, none, []⟩] exLight = .ok l ∧
        l[0]? = some (promoteDef d) := by
  obtain ⟨d, h1, h2, _, l, h4, h5⟩ :=
    (c5_theorem [⟨exBase, 1, none, []⟩] exLight .light rfl (by decide)
      (by decide)).2 0 (by decide)
  exact ⟨d, h1, h2, l, h4, h5⟩

/-- C6: the registry-side version parser rejects a token without the dot
separator with an error, but the unicode-types `Version::try_from` — used
when deserializing the catalog — panics on it (it unwraps the dot split);
the panic is the `none` outcome of the model.  The claim that every
malformed token is reported as an error, never as a crash, fails on the
input string `17`. -/
theorem c6_theorem :
    tryFromVersionStr ['1', '7'] = none ∧
    parseUnicodeVersion ['E', '1', '7'] = .error .missingDecimal ∧
    parseUnicodeVersion ['1', '7'] = .error .missingE := by
  refine ⟨rfl, rfl, rfl⟩

/-- C7: code point validation.  All-hex token lists with an invalid scalar
fail with the invalid-scalar error; a data line fails with the
emoji-mismatch error exactly when its fields tokenize and its code points
decode but the decoded string differs from the literal glyph; a
successfully parsed entry carries the decoded string as its glyph; and a
line failing anywhere in the stream aborts the whole data parse with that
error. -/
theorem c7_theorem (g : Group) (sub line : List Char) :
    (∀ toks, (∀ tk ∈ toks, hexU32 tk ≠ none) →
      (∃ tk ∈ toks, ∃ v, hexU32 tk = some v ∧ isValidScalar v = false) →
      parseCPs toks = .error .invalidScalarValue) ∧
    (parseEntry g sub line = .error .emojiMismatch ↔
      ∃ cp rest status rest2 em uv nm cs,
        splitOnce ';' line = some (cp, rest) ∧
        splitOnce '#' rest = some (status, rest2) ∧
        splitN3 (trimStr rest2) = [em, uv, nm] ∧
        parseCodePoints cp = .ok cs ∧ em ≠ cs) ∧
    (∀ ent, parseEntry g sub line = .ok ent →
      ∃ cp rest, splitOnce ';' line = some (cp, rest) ∧
        parseCodePoints cp = .ok ent.emoji) ∧
    (∀ pre post g2 s2 es2 err,
      parseLinesSt [] [] [] pre = .ok (g2, s2, es2) →
      procLine g2 s2 es2 line = .error err →
      parseEmojiData (pre ++ line :: post) = .error err) := by
  refine ⟨parseCPs_invalid_scalar, parseEntry_mismatch_iff g sub line, ?_, ?_⟩
  · intro ent hok
    obtain ⟨cp, rest, status, rest2, em, uv, nm, cs, st, v, h1, h2, h3, h4,
      h5, h6, h7, h8⟩ := parseEntry_ok_shape g sub line ent hok
    refine ⟨cp, rest, h1, ?_⟩
    rw [h8]
    simpa [h5] using h4
  · intro pre post g2 s2 es2 err h1 h2
    unfold parseEmojiData
    rw [parseLinesSt_append, h1]
    simp only [parseLinesSt, h2]

/-- C7 witness: a crafted line whose hex scalar decodes to a different
character than its literal glyph fails with the emoji-mismatch error. -/
theorem c7_witness :
    parseEntry .objects ['s'] "61 ; fully-qualified # b E1.0 x".data =
      .error .emojiMismatch :=
  (c7_theorem .objects ['s'] "61 ; fully-qualified # b E1.0 x".data).2.1.mpr
    ⟨"61 ".data, " fully-qualified # b E1.0 x".data, " fully-qualified ".data,
     " b E1.0 x".data, ['b'], "E1.0".data, ['x'], ['a'],
     by decide, by decide, by decide, by decide, by decide⟩

/-- A catalog fixture record whose glyph matches the fixture base entry. -/
def exG : Gemoji := ⟨['a'], [['h', 'i']], ⟨10, 2⟩, [['t', 'g']]⟩

/-- C8: catalog enrichment.  If no catalog record has a glyph equal to the
entry glyph, the entry is returned unchanged (no error); if the lookup
finds a record, it is a member of the catalog with an equal glyph, and its
platform version, tags and aliases are copied into the entry.  Entries
produced by the line parser start with empty tags, empty aliases and an
absent platform version, so an unmatched entry retains exactly those. -/
theorem c8_theorem (gs : List Gemoji) (e : Entry) :
    ((∀ g ∈ gs, g.emoji ≠ e.emoji) → enrich gs e = e) ∧
    (∀ g, gs.find? (fun g => decide (g.emoji = e.emoji)) = some g →
      g ∈ gs ∧ g.emoji = e.emoji ∧
      enrich gs e = { e with
                      ios_version := some g.ios_version
                      tags := g.tags
                      aliases := g.aliases }) ∧
    (∀ gr sub line ent, parseEntry gr sub line = .ok ent →
      ent.tags = [] ∧ ent.aliases = [] ∧ ent.ios_version = none) := by
  refine ⟨?_, ?_, ?_⟩
  · intro hnone
    have hf : gs.find? (fun g => decide (g.emoji = e.emoji)) = none := by
      rw [List.find?_eq_none]
      intro g hg
      simpa using hnone g hg
    unfold enrich
    rw [hf]
  · intro g hf
    have hmem : g ∈ gs := List.mem_of_find?_eq_some hf
    have heq : g.emoji = e.emoji := by simpa using List.find?_some hf
    refine ⟨hmem, heq, ?_⟩
    unfold enrich
    rw [hf]
  · intro gr sub2 line2 ent hok
    obtain ⟨cp, rest, status, rest2, em, uv, nm, cs, st, v, h1, h2, h3, h4,
      h5, h6, h7, h8⟩ := parseEntry_ok_shape gr sub2 line2 ent hok
    rw [h8]
    exact ⟨rfl, rfl, rfl⟩

/-- C8 witness: the theorem applied to a one-record catalog whose glyph
matches the fixture base entry. -/
theorem c8_witness :
    exG ∈ [exG] ∧ exG.emoji = exBase.emoji ∧
    enrich [exG] exBase = { exBase with
                            ios_version := some exG.ios_version
                            tags := exG.tags
                            aliases := exG.aliases } :=
  (c8_theorem [exG] exBase).2.1 exG (by decide)

/-- C9: the group string conversion round-trips — converting any variant to
its canonical string and parsing it back yields the variant — and parsing
is exact-match: a string that is not the canonical string of any variant
fails. -/
theorem c9_theorem (g : Group) (s : List Char) :
    tryFromGroup (Group.asStr g) = .ok g ∧
    ((∀ g2, s ≠ Group.asStr g2) → tryFromGroup s = .error .invalidGroup) := by
  constructor
  · cases g <;> rfl
  · intro h
    simp only [tryFromGroup, groupList, tryFromGroupGo]
    iterate 10 rw [if_neg fun hh => h _ hh.symm]

/-- C9 witness: round trip for the flags group and failure on the
non-canonical string `z`. -/
theorem c9_witness :
    tryFromGroup (Group.asStr .flags) = .ok .flags ∧
    tryFromGroup ['z'] = .error .invalidGroup :=
  ⟨(c9_theorem .flags ['z']).1,
   (c9_theorem .flags ['z']).2 (by intro g2; cases g2 <;> decide)⟩

theorem matchesSearch_eq (e : Emoji) (q : List Char) :
    matchesSearch e q =
      (decide (q = []) ||
       containsStr (lowerStr e.entry.emoji) (lowerStr q) ||
       containsStr (lowerStr e.entry.name) (lowerStr q) ||
       containsStr (lowerStr e.entry.subgroup) (lowerStr q) ||
       e.entry.tags.any (fun t => containsStr (lowerStr t) (lowerStr q)) ||
       e.entry.aliases.any (fun a => containsStr (lowerStr a) (lowerStr q))) := by
  by_cases hq : q = []
  · simp [matchesSearch, hq]
  · simp only [matchesSearch, if_neg hq]
    cases h1 : containsStr (lowerStr e.entry.emoji) (lowerStr q) <;>
      cases h2 : containsStr (lowerStr e.entry.name) (lowerStr q) <;>
        cases h3 : containsStr (lowerStr e.entry.subgroup) (lowerStr q) <;>
          cases h4 : e.entry.tags.any
              (fun t => containsStr (lowerStr t) (lowerStr q)) <;>
            cases h5 : e.entry.aliases.any
                (fun a => containsStr (lowerStr a) (lowerStr q)) <;>
              simp [h1, h2, h3, h4, h5, hq]

/-- C10: the search predicate accepts every record on the empty query, and
on a non-empty query accepts exactly when the lowercased query occurs as a
substring of the lowercased glyph, name or subgroup, or of the lowercase of
one of the tags or one of the aliases. -/
theorem c10_theorem (e : Emoji) (q : List Char) :
    matchesSearch e q = true ↔
      (q = [] ∨
        (∃ pre post, lowerStr e.entry.emoji = pre ++ lowerStr q ++ post) ∨
        (∃ pre post, lowerStr e.entry.name = pre ++ lowerStr q ++ post) ∨
        (∃ pre post, lowerStr e.entry.subgroup = pre ++ lowerStr q ++ post) ∨
        (∃ t ∈ e.entry.tags, ∃ pre post, lowerStr t = pre ++ lowerStr q ++ post) ∨
        (∃ a ∈ e.entry.aliases,
          ∃ pre post, lowerStr a = pre ++ lowerStr q ++ post)) := by
  rw [matchesSearch_eq]
  simp only [Bool.or_eq_true, decide_eq_true_eq, containsStr_iff,
    List.any_eq_true, or_assoc]

end Emotif
